import Mathlib

/-!
Shallow embedding of `src/ollama_model_manager.py` (witbrock/ollamicide).

Only the storage-management core is modelled: the manifest scanner
(`list_models`), the reference-index builder (`find_all_references`) and the
deletion engine (`delete_model`).  The tkinter GUI code (widgets, message
boxes, `refresh_model_list`) is presentation; a deletion run records its
terminal outcome (`DeleteStatus`), which is what the message boxes and the
error prints communicate.

Modelling conventions:
* The manifest tree under `MANIFESTS_DIR` is a list of
  `(relative path segments, parse result)` pairs; `none` stands for a file
  that fails to read or to parse (`json.JSONDecodeError` or any other
  exception, both of which the source skips).  A single-segment path is a
  file sitting directly in `MANIFESTS_DIR`; longer paths live inside
  subdirectories.
* The blob store `BLOBS_DIR` is the list of blob file names present.
* `os.remove` failures other than "missing file" (permissions, I/O) are
  supplied by the oracle fields `manifestRemoveFails` / `blobRemoveFails`;
  `os.remove` on a missing file also raises.
* Python dicts are association lists updated by insert-or-overwrite
  (`updateReg`, `updIdx`, `bump`); Python sets of strings are duplicate-free
  lists built with `insertIfAbsent` — only membership is ever observed.
* The only float computation is `format_size`, which repeatedly divides the
  byte total by 1024.  Division by the power of two 1024 is exact in binary
  floating point for every realistic size, so the float value is always
  exactly `total / 1024^k`; the model therefore carries the numerator
  `total` and the denominator `1024^k` as exact naturals.  `f"{x:3.1f}"`
  correctly rounds the exact value with ties to even, so the model agrees
  with CPython for every total below 2^53.  The minimum width 3 in `3.1f`
  never pads, because a non-negative rendering `d.d` already has at least
  three characters.
* The manifest `modified` timestamp (`os.path.getmtime`) is an environment
  reading used only for display; it is omitted from the record.  The debug
  `print` calls are pure output and are not modelled.
-/

/-- A parsed manifest document: the three fields the source reads
(`config.digest`, `layers[*].size`, `blobs[*].sha256`), each optional,
mirroring the Python `dict.get` accesses.  Unknown fields are ignored by the
source and hence not modelled. -/
structure Manifest where
  configDigest : Option String
  layers : List (Option Nat)
  blobs : List (Option String)
  deriving DecidableEq, Repr

/-- One entry of the in-memory model registry, mirroring the dict stored at
`models[model_name]` in `list_models` (lines 70-78).  `pfx` stands for the
source's `prefix` key. -/
structure ModelRecord where
  file_path : List String
  blob_hashes : List String
  id : String
  size : String
  pfx : String
  tag : String
  deriving DecidableEq, Repr

/-- The in-memory registry: Python dict `model_name -> record`. -/
abbrev Registry := List (String × ModelRecord)

/-- The blob reference index: Python dict `blob_filename -> set of names`. -/
abbrev RefIndex := List (String × List String)

/-- Filesystem state visible to the program: the manifest tree, the blob
store, and the removal-failure oracles. -/
structure FS where
  rootExists : Bool
  files : List (List String × Option Manifest)
  blobFiles : List String
  manifestRemoveFails : List (List String)
  blobRemoveFails : List String
  deriving DecidableEq, Repr

/-- Python dict lookup `d.get(key)` / `d[key]` on an association list. -/
def assocFind {α : Type} : List (String × α) → String → Option α
  | [], _ => none
  | (k, v) :: rest, key => if k = key then some v else assocFind rest key

/-- Python `set.add`: duplicate-free insertion into a list seen as a set. -/
def insertIfAbsent (x : String) (l : List String) : List String :=
  if x ∈ l then l else l ++ [x]

/-- The blob file name derived from one entry of a manifest's `blobs` list
(lines 64-68 and 148-151): `"sha256-" + sha` when the `sha256` field is a
non-empty string (Python truthiness: `if sha_hash:` skips both a missing
field and an empty string), `none` otherwise. -/
def blobName : Option String → Option String
  | some h => if h = "" then none else some ("sha256-" ++ h)
  | none => none

/-- All blob file names referenced by a manifest's `blobs` list. -/
def blobNamesList (bs : List (Option String)) : List String :=
  bs.filterMap blobName

/-- The `blobs` set gathered at lines 63-68. -/
def blobHashes (m : Manifest) : List String :=
  m.blobs.foldl
    (fun s ob =>
      match blobName ob with
      | some f => insertIfAbsent f s
      | none => s)
    []

/-- Round-half-even of the fraction `num / den` (for `den > 0`), the
rounding used by CPython's fixed-point float formatting. -/
def roundHalfEven (num den : Nat) : Nat :=
  let q := num / den
  let r := num % den
  if 2 * r < den then q
  else if 2 * r > den then q + 1
  else if q % 2 = 0 then q else q + 1

/-- The rendering `f"{x:3.1f}"` of the non-negative exact value
`total / den`: one digit after the decimal point, correctly rounded with
ties to even. -/
def fmt1 (total den : Nat) : String :=
  let t := roundHalfEven (10 * total) den
  toString (t / 10) ++ "." ++ toString (t % 10)

/-- The unit loop of `format_size` (lines 22-26).  The running float
`size_bytes` is carried exactly as `total / den`; each `size_bytes /= 1024.0`
multiplies the denominator by 1024, and the comparison
`size_bytes < 1024.0` is `total < 1024 * den`. -/
def format_size_go (total den : Nat) : List String → String
  | [] => fmt1 total den ++ " TB"
  | u :: units =>
    if total < 1024 * den then fmt1 total den ++ " " ++ u
    else format_size_go total (den * 1024) units

/-- `format_size` (lines 20-26): convert a byte count to a human readable
string. -/
def format_size (size_bytes : Nat) : String :=
  format_size_go size_bytes 1 ["B", "KB", "MB", "GB"]

/-- The model name derived at lines 34-43 from the manifest's relative path
segments. -/
def nameOf (parts : List String) : String :=
  if parts.length > 1 then
    String.intercalate "/" parts.dropLast ++ ":" ++ parts.getLastD ""
  else
    parts.headD "unknown" ++ ":latest"

/-- The registry record built for one parsed manifest (lines 44-78). -/
def mkRecord (parts : List String) (m : Manifest) : ModelRecord :=
  { file_path := parts
    blob_hashes := blobHashes m
    id := (((m.configDigest.getD "sha256:unknown").splitOn ":").getLastD "").take 12
    size := format_size (m.layers.map (fun l => l.getD 0)).sum
    pfx := if parts.length > 1 then String.intercalate "/" parts.dropLast
           else parts.headD "unknown"
    tag := if parts.length > 1 then parts.getLastD "" else "latest" }

/-- Python dict assignment `models[name] = record`: insert or overwrite. -/
def updateReg (reg : Registry) (nm : String) (r : ModelRecord) : Registry :=
  reg.filter (fun p => decide (p.1 ≠ nm)) ++ [(nm, r)]

/-- One iteration of the scan loop of `list_models` (lines 28-82): a
parseable file adds (or overwrites) its record, an unreadable or malformed
file is skipped. -/
def scanStep (reg : Registry) (pf : List String × Option Manifest) : Registry :=
  match pf.2 with
  | some m => updateReg reg (nameOf pf.1) (mkRecord pf.1 m)
  | none => reg

/-- `list_models` (lines 12-92): scan the manifest tree into a registry;
a missing manifests root yields the empty registry (lines 17-18). -/
def list_models (fs : FS) : Registry :=
  if fs.rootExists then fs.files.foldl scanStep [] else []

/-- One record's contribution to the reference index: the inner loop of
`find_all_references` (lines 103-104), `setdefault` plus `set.add` for every
referenced blob. -/
def updIdx : RefIndex → String → String → RefIndex
  | [], b, nm => [(b, [nm])]
  | (k, v) :: rest, b, nm =>
    if k = b then (k, insertIfAbsent nm v) :: rest
    else (k, v) :: updIdx rest b nm

/-- Add one model's blob references to the index. -/
def addRecord (idx : RefIndex) (nm : String) (bs : List String) : RefIndex :=
  bs.foldl (fun i b => updIdx i b nm) idx

/-- The pure core of `find_all_references` (lines 100-105), folded over an
already-scanned registry snapshot. -/
def buildIndex (reg : Registry) : RefIndex :=
  reg.foldl (fun idx p => addRecord idx p.1 p.2.blob_hashes) []

/-- `find_all_references` (lines 94-105): rescan the disk via `list_models`
and invert the blob references. -/
def find_all_references (fs : FS) : RefIndex :=
  buildIndex (list_models fs)

/-- Python `blob_refs_after.setdefault(fname, 0); blob_refs_after[fname] += 1`
(lines 152-153). -/
def bump : List (String × Nat) → String → List (String × Nat)
  | [], b => [(b, 1)]
  | (k, c) :: rest, b =>
    if k = b then (k, c + 1) :: rest else (k, c) :: bump rest b

/-- Count the blob references of one manifest's `blobs` list
(lines 148-153). -/
def bumpList (acc : List (String × Nat)) : List (Option String) → List (String × Nat)
  | [] => acc
  | ob :: rest =>
    match blobName ob with
    | some f => bumpList (bump acc f) rest
    | none => bumpList acc rest

/-- Whether a directory entry passes the recount filter of lines 143-144:
`os.scandir` is NOT recursive, so only single-segment paths are files of the
top-level directory, and only names ending in `".json"` (case-insensitively)
are accepted. -/
def isTopLevelJson (p : List String) : Bool :=
  p.length == 1 && (p.headD "").toLower.endsWith ".json"

/-- The recount loop body over the directory entries (lines 143-155); a file
that fails to read or parse is ignored (`except: pass`). -/
def recountFiles : List (List String × Option Manifest) → List (String × Nat) → List (String × Nat)
  | [], acc => acc
  | (p, c) :: rest, acc =>
    if isTopLevelJson p then
      match c with
      | some m => recountFiles rest (bumpList acc m.blobs)
      | none => recountFiles rest acc
    else recountFiles rest acc

/-- The post-removal reference recount of `delete_model` (lines 140-155). -/
def recount (fs : FS) : List (String × Nat) :=
  if fs.rootExists then recountFiles fs.files [] else []

/-- Whether `os.remove(manifest_path)` succeeds: the file must exist and not
be covered by the failure oracle. -/
def hasFile (fs : FS) (p : List String) : Bool :=
  fs.files.any (fun pf => decide (pf.1 = p))

/-- Success condition of the manifest removal at lines 123-128. -/
def removeManifestOk (fs : FS) (p : List String) : Bool :=
  hasFile fs p && decide (p ∉ fs.manifestRemoveFails)

/-- Effect of a successful `os.remove(manifest_path)`. -/
def fsRemoveManifest (fs : FS) (p : List String) : FS :=
  { fs with files := fs.files.filter (fun pf => decide (pf.1 ≠ p)) }

/-- Effect of a successful `os.remove(blob_path)`. -/
def removeBlob (fs : FS) (b : String) : FS :=
  { fs with blobFiles := fs.blobFiles.filter (fun x => decide (x ≠ b)) }

/-- The blob sweep of `delete_model` (lines 157-166): a candidate blob is
removed when its recount is zero and its file exists; a failing removal is
reported (printed) and does not stop the sweep; a missing file is skipped
silently. Returns the final filesystem and the failed blob names in sweep
order. -/
def sweepBlobs (refs : List (String × Nat)) : FS → List String → FS × List String
  | fs, [] => (fs, [])
  | fs, b :: rest =>
    if (assocFind refs b).getD 0 = 0 then
      if b ∈ fs.blobFiles then
        if b ∈ fs.blobRemoveFails then
          ((sweepBlobs refs fs rest).1, b :: (sweepBlobs refs fs rest).2)
        else sweepBlobs refs (removeBlob fs b) rest
      else sweepBlobs refs fs rest
    else sweepBlobs refs fs rest

/-- Modelled from the spec: the `DeletionResult` summary that §4.3 of the
specification says `deleteModel` returns — manifest removed (bool), blobs
deleted, blobs skipped because still referenced, per-blob errors.  The
source defines no such type; it is needed to state what the specification
claims about the return value. -/
structure DeletionResult where
  manifestRemoved : Bool
  deleted : List String
  skippedStillReferenced : List String
  errors : List String
  deriving DecidableEq, Repr

/-- Terminal outcome of one `delete_model` call, corresponding to which exit
the source takes: early return with the "not found" error box (lines
114-117), early return with the "failed to remove manifest" error box
(lines 123-128), or run to completion with the listed per-blob removal
failures printed (lines 157-169). -/
inductive DeleteStatus where
  | notFound
  | manifestRemoveFailed
  | completed (blobErrors : List String)
  deriving DecidableEq, Repr

/-- Everything observable about one `delete_model` call: the filesystem
afterwards, the caller's registry dict afterwards, the Python return value
(the source returns `None` on every path), and the terminal outcome. -/
structure DeleteRun where
  fs : FS
  registry : Registry
  returned : Option DeletionResult
  status : DeleteStatus
  deriving DecidableEq, Repr

/-- `delete_model` (lines 107-172).  The source copies the registry
(`new_models = dict(models); del new_models[model_name]`, lines 134-135) and
never writes to the caller's dict, so the registry component is the input
registry on every path; the copy itself is dead code (the recount reads the
disk instead) and is not bound here.  The final `refresh_model_list` call
only repopulates the GUI table and rebinds the GUI-owned `models_cache`
global; it does not touch the caller's dict or the filesystem. -/
def delete_model (model_name : String) (models : Registry) (fs : FS) : DeleteRun :=
  match assocFind models model_name with
  | none => { fs := fs, registry := models, returned := none, status := .notFound }
  | some info =>
    if removeManifestOk fs info.file_path then
      let fs1 := fsRemoveManifest fs info.file_path
      let blob_refs_after := recount fs1
      let swept := sweepBlobs blob_refs_after fs1 info.blob_hashes
      { fs := swept.1
        registry := models
        returned := none
        status := .completed swept.2 }
    else
      { fs := fs, registry := models, returned := none, status := .manifestRemoveFailed }

/-! ### Concrete registries and filesystems used to instantiate the theorems -/

/-- Manifest of model `a.json:latest` referencing blobs `aa1` and `shared1`. -/
def mC1a : Manifest :=
  { configDigest := none, layers := [], blobs := [some "aa1", some "shared1"] }

/-- Manifest of the surviving model `lib/b:latest`, stored in a subdirectory,
still referencing blob `shared1`. -/
def mC1b : Manifest :=
  { configDigest := none, layers := [], blobs := [some "shared1"] }

/-- A manifests tree with one top-level manifest and one nested manifest that
share blob `sha256-shared1`. -/
def fsC1 : FS :=
  { rootExists := true
    files := [(["a.json"], some mC1a), (["lib", "b", "latest"], some mC1b)]
    blobFiles := ["sha256-aa1", "sha256-shared1"]
    manifestRemoveFails := []
    blobRemoveFails := [] }

/-- The registry scanned from `fsC1`. -/
def regC1 : Registry := list_models fsC1

/-- Manifest of a model whose single blob nobody else references. -/
def mC2 : Manifest :=
  { configDigest := none, layers := [some 3], blobs := [some "only2"] }

/-- A store holding only that model's manifest; `sha256-other2` is an
unrelated blob file. -/
def fsC2 : FS :=
  { rootExists := true
    files := [(["solo2.json"], some mC2)]
    blobFiles := ["sha256-only2", "sha256-other2"]
    manifestRemoveFails := []
    blobRemoveFails := [] }

/-- The registry scanned from `fsC2`. -/
def regC2 : Registry := list_models fsC2

/-- A filesystem used to show that deleting an unknown name touches
nothing. -/
def fsC3 : FS :=
  { rootExists := true
    files := [(["keep.json"], none)]
    blobFiles := ["sha256-k3"]
    manifestRemoveFails := []
    blobRemoveFails := [] }

/-- Manifest whose file the removal oracle refuses to delete. -/
def mC4 : Manifest :=
  { configDigest := none, layers := [], blobs := [some "c4"] }

/-- A store where removing `locked.json` fails (e.g. permissions). -/
def fsC4 : FS :=
  { rootExists := true
    files := [(["locked.json"], some mC4)]
    blobFiles := ["sha256-c4"]
    manifestRemoveFails := [["locked.json"]]
    blobRemoveFails := [] }

/-- The registry scanned from `fsC4`. -/
def regC4 : Registry := list_models fsC4

/-- Manifest for a successfully completed deletion run. -/
def mC5 : Manifest :=
  { configDigest := none, layers := [some 7], blobs := [some "c5"] }

/-- A store where deleting `m5.json:latest` runs to completion. -/
def fsC5 : FS :=
  { rootExists := true
    files := [(["m5.json"], some mC5)]
    blobFiles := ["sha256-c5"]
    manifestRemoveFails := []
    blobRemoveFails := [] }

/-- The registry scanned from `fsC5`. -/
def regC5 : Registry := list_models fsC5

/-- Manifest referencing blobs `x6` and the shared `y6`. -/
def mC6a : Manifest :=
  { configDigest := none, layers := [], blobs := [some "x6", some "y6"] }

/-- Manifest referencing only the shared blob `y6`. -/
def mC6b : Manifest :=
  { configDigest := none, layers := [], blobs := [some "y6"] }

/-- Two models sharing blob `sha256-y6`, used to instantiate the reference
index inversion. -/
def fsC6 : FS :=
  { rootExists := true
    files := [(["m1"], some mC6a), (["m2"], some mC6b)]
    blobFiles := ["sha256-x6", "sha256-y6"]
    manifestRemoveFails := []
    blobRemoveFails := [] }

/-- A nonexistent manifests root over a nonempty (unreachable) file list:
the scanner must return the empty registry without looking at the files. -/
def fsC8 : FS :=
  { rootExists := false
    files := [(["phantom.json"], some mC4)]
    blobFiles := []
    manifestRemoveFails := []
    blobRemoveFails := [] }

/-- Manifest with one declared layer size and one layer without a size. -/
def mC9 : Manifest :=
  { configDigest := none, layers := [some 100, none], blobs := [] }

/-- A store holding only the manifest `mC9`. -/
def fsC9 : FS :=
  { rootExists := true
    files := [(["m9"], some mC9)]
    blobFiles := []
    manifestRemoveFails := []
    blobRemoveFails := [] }

/-! ### Association list and set-list lemmas -/

theorem mem_insertIfAbsent {x y : String} {l : List String} :
    x ∈ insertIfAbsent y l ↔ x ∈ l ∨ x = y := by
  unfold insertIfAbsent
  by_cases h : y ∈ l
  · rw [if_pos h]
    constructor
    · exact Or.inl
    · rintro (hx | rfl)
      · exact hx
      · exact h
  · rw [if_neg h]
    simp

theorem assocFind_mem {α : Type} {l : List (String × α)} {k : String} {v : α}
    (h : assocFind l k = some v) : (k, v) ∈ l := by
  induction l with
  | nil => exact absurd h (by simp [assocFind])
  | cons p rest ih =>
    obtain ⟨k0, v0⟩ := p
    simp only [assocFind] at h
    by_cases hk : k0 = k
    · rw [if_pos hk] at h
      injection h with h
      subst hk
      subst h
      exact List.mem_cons_self _ _
    · rw [if_neg hk] at h
      exact List.mem_cons_of_mem _ (ih h)

theorem mem_updateReg {reg : Registry} {nm k : String} {r v : ModelRecord}
    (h : (k, v) ∈ updateReg reg nm r) : (k, v) ∈ reg ∨ (k = nm ∧ v = r) := by
  unfold updateReg at h
  rcases List.mem_append.mp h with h | h
  · exact Or.inl (List.mem_filter.mp h).1
  · simp only [List.mem_singleton, Prod.mk.injEq] at h
    exact Or.inr h

/-! ### Scanner lemmas -/

theorem scan_foldl_mem {files : List (List String × Option Manifest)} {acc : Registry}
    {nm : String} {r : ModelRecord}
    (h : (nm, r) ∈ files.foldl scanStep acc) :
    (nm, r) ∈ acc ∨ ∃ p m, (p, some m) ∈ files ∧ nm = nameOf p ∧ r = mkRecord p m := by
  induction files generalizing acc with
  | nil => exact Or.inl (by simpa using h)
  | cons pf rest ih =>
    obtain ⟨p, c⟩ := pf
    rw [List.foldl_cons] at h
    cases c with
    | none =>
      rcases ih (show (nm, r) ∈ rest.foldl scanStep acc by simpa [scanStep] using h) with
        h1 | ⟨q, m, hm, h2, h3⟩
      · exact Or.inl h1
      · exact Or.inr ⟨q, m, List.mem_cons_of_mem _ hm, h2, h3⟩
    | some m =>
      rcases ih h with h1 | ⟨q, m2, hm, h2, h3⟩
      · have h1x : (nm, r) ∈ updateReg acc (nameOf p) (mkRecord p m) := by
          simpa [scanStep] using h1
        rcases mem_updateReg h1x with h2 | ⟨h3, h4⟩
        · exact Or.inl h2
        · exact Or.inr ⟨p, m, List.mem_cons_self _ _, h3, h4⟩
      · exact Or.inr ⟨q, m2, List.mem_cons_of_mem _ hm, h2, h3⟩

theorem scan_foldl_filter (files : List (List String × Option Manifest)) (acc : Registry) :
    (files.filter (fun pf => pf.2.isSome)).foldl scanStep acc = files.foldl scanStep acc := by
  induction files generalizing acc with
  | nil => rfl
  | cons pf rest ih =>
    obtain ⟨p, c⟩ := pf
    cases c with
    | none => simpa [List.filter_cons, scanStep] using ih acc
    | some m => simp [List.filter_cons, scanStep, ih]

/-! ### Claim C1 — code bug evaluation -/

/-- C1: the specification states that after manifest removal `delete_model`
re-scans ALL manifest files remaining on disk, so a candidate blob still
referenced by some surviving manifest, wherever that manifest lives under
the manifests root, is preserved.  The code violates this: the recount
(lines 142-155) uses a non-recursive `os.scandir` restricted to top-level
names ending in `.json`, so the surviving nested manifest `lib/b/latest`
is never counted and its shared blob file `sha256-shared1` is deleted.
This theorem evaluates `delete_model` at that failing input. -/
theorem c1_shared_blob_deleted :
    (["lib", "b", "latest"], some mC1b) ∈ (delete_model "a.json:latest" regC1 fsC1).fs.files
      ∧ "sha256-shared1" ∈ blobNamesList mC1b.blobs
      ∧ "sha256-shared1" ∈ fsC1.blobFiles
      ∧ "sha256-shared1" ∉ (delete_model "a.json:latest" regC1 fsC1).fs.blobFiles
      ∧ (delete_model "a.json:latest" regC1 fsC1).status = .completed [] := by
  decide

/-! ### Claim C3 — unknown model name -/

/-- C3: for every registry and every name absent from it, `delete_model`
exits through the not-found error path and performs no filesystem mutation:
the resulting state is exactly the input state. -/
theorem c3_not_found (model_name : String) (models : Registry) (fs : FS)
    (h : assocFind models model_name = none) :
    delete_model model_name models fs =
      { fs := fs, registry := models, returned := none, status := .notFound } := by
  unfold delete_model
  rw [h]

/-- Witness for C3: deleting the name `ghost` from an empty registry leaves
the filesystem `fsC3` untouched and reports not-found. -/
theorem c3_not_found_witness :
    delete_model "ghost" [] fsC3 =
      { fs := fsC3, registry := [], returned := none, status := .notFound } :=
  c3_not_found "ghost" [] fsC3 rfl

/-! ### Claim C4 — manifest removal failure -/

/-- C4: if the registry holds `model_name` and the manifest file cannot be
removed, `delete_model` stops with the manifest-removal error and mutates
nothing — same filesystem, same registry, no recount, no blob touched; and
conversely the blob store can only change when the manifest removal
succeeded. -/
theorem c4_manifest_removal_failure (model_name : String) (models : Registry) (fs : FS)
    (info : ModelRecord) (h : assocFind models model_name = some info) :
    (removeManifestOk fs info.file_path = false →
        delete_model model_name models fs =
          { fs := fs, registry := models, returned := none,
            status := .manifestRemoveFailed })
      ∧ ((delete_model model_name models fs).fs.blobFiles ≠ fs.blobFiles →
          removeManifestOk fs info.file_path = true) := by
  have hfailEq : ∀ _hfail : removeManifestOk fs info.file_path = false,
      delete_model model_name models fs =
        { fs := fs, registry := models, returned := none,
          status := .manifestRemoveFailed } := by
    intro hfail
    unfold delete_model
    rw [h]
    simp [hfail]
  refine ⟨hfailEq, ?_⟩
  intro hblob
  by_cases hok : removeManifestOk fs info.file_path = true
  · exact hok
  · have hfail : removeManifestOk fs info.file_path = false := by
      cases hv : removeManifestOk fs info.file_path
      · rfl
      · exact absurd hv hok
    rw [hfailEq hfail] at hblob
    exact absurd rfl hblob

/-- Witness for C4: with `locked.json` protected by the removal oracle, the
deletion run fails with the manifest-removal error and changes nothing. -/
theorem c4_manifest_removal_failure_witness :
    delete_model "locked.json:latest" regC4 fsC4 =
      { fs := fsC4, registry := regC4, returned := none,
        status := .manifestRemoveFailed } :=
  (c4_manifest_removal_failure "locked.json:latest" regC4 fsC4
    (mkRecord ["locked.json"] mC4) rfl).1 rfl

/-! ### Claim C5 — return value of a completed deletion -/

/-- C5 counterexample: the specification claims a completed `delete_model`
returns a `DeletionResult` summary.  At the concrete completed run below the
function returns `None` — there is no `DeletionResult` value at all. -/
theorem c5_returns_none_counterexample :
    (delete_model "m5.json:latest" regC5 fsC5).status = .completed []
      ∧ ¬ ∃ dr : DeletionResult,
          (delete_model "m5.json:latest" regC5 fsC5).returned = some dr := by
  constructor
  · rfl
  · rintro ⟨dr, hdr⟩
    rw [show (delete_model "m5.json:latest" regC5 fsC5).returned = none from rfl] at hdr
    exact Option.noConfusion hdr

/-- C5 (amended): a completed `delete_model` run returns `None` — no
`DeletionResult` summary is handed back to the caller; completion and the
per-blob failures are communicated only through side effects, recorded here
as the `completed` status. -/
theorem c5_amended_returns_none (model_name : String) (models : Registry) (fs : FS)
    (info : ModelRecord) (h : assocFind models model_name = some info)
    (hok : removeManifestOk fs info.file_path = true) :
    (delete_model model_name models fs).returned = none
      ∧ (delete_model model_name models fs).status =
          .completed (sweepBlobs (recount (fsRemoveManifest fs info.file_path))
            (fsRemoveManifest fs info.file_path) info.blob_hashes).2 := by
  unfold delete_model
  rw [h]
  simp [hok]

/-- Witness for C5 (amended): the completed run on `fsC5` returns `None`. -/
theorem c5_amended_returns_none_witness :
    (delete_model "m5.json:latest" regC5 fsC5).returned = none :=
  (c5_amended_returns_none "m5.json:latest" regC5 fsC5
    (mkRecord ["m5.json"] mC5) rfl rfl).1

/-! ### Claim C7 — derived model names -/

/-- C7: the derived model name is `"<prefix>:<tag>"`: with more than one
path segment the prefix joins all segments but the last and the tag is the
last segment; for a manifest directly under the root the prefix is that
single segment and the tag is the fixed sentinel `"latest"`. -/
theorem c7_name_shape (parts : List String) :
    (1 < parts.length →
        nameOf parts =
          String.intercalate "/" parts.dropLast ++ ":" ++ parts.getLastD "")
      ∧ (parts.length = 1 → nameOf parts = parts.headD "" ++ ":latest") := by
  constructor
  · intro h
    unfold nameOf
    rw [if_pos h]
  · intro h
    unfold nameOf
    rw [if_neg (by omega)]
    cases parts with
    | nil => simp at h
    | cons a rest => rfl

/-- Witness for C7: a nested path and a root-level path. -/
theorem c7_name_shape_witness :
    nameOf ["lib", "m", "tag7"] =
        String.intercalate "/" (["lib", "m", "tag7"].dropLast) ++ ":"
          ++ (["lib", "m", "tag7"].getLastD "")
      ∧ nameOf ["solo7"] = ["solo7"].headD "" ++ ":latest" :=
  ⟨(c7_name_shape ["lib", "m", "tag7"]).1 (by decide),
   (c7_name_shape ["solo7"]).2 (by decide)⟩

/-! ### Claim C8 — scanner robustness -/

/-- C8: a missing manifests root yields the empty registry without error,
and unreadable or malformed files are skipped individually — the scan
result is exactly the scan of the parseable files alone. -/
theorem c8_scan_robust (fs : FS) :
    (fs.rootExists = false → list_models fs = [])
      ∧ list_models fs =
          list_models { fs with files := fs.files.filter (fun pf => pf.2.isSome) } := by
  constructor
  · intro h
    simp [list_models, h]
  · cases h : fs.rootExists
    · simp [list_models, h]
    · simp only [list_models, h, if_true]
      exact (scan_foldl_filter fs.files []).symm

/-- Witness for C8: scanning `fsC8`, whose root does not exist, returns the
empty registry. -/
theorem c8_scan_robust_witness : list_models fsC8 = [] :=
  (c8_scan_robust fsC8).1 rfl

/-! ### Claim C9 — record size -/

/-- C9 counterexample: the record does NOT hold the byte total as its size.
For a manifest with declared layer sizes summing to 100 bytes, the record's
`size` field is the human-readable rendering `"100.0 B"`, not the byte
total `100`. -/
theorem c9_size_not_byte_total :
    (mkRecord ["m9"] mC9).size ≠ toString ((mC9.layers.map (fun l => l.getD 0)).sum) := by
  decide

/-- C9 (amended): every record produced by the scanner holds, in its `size`
field, the human-readable `format_size` rendering of the byte total of its
source manifest — the sum of the declared layer sizes, a layer with no
declared size contributing 0. -/
theorem c9_record_size_formatted (fs : FS) (nm : String) (r : ModelRecord)
    (h : assocFind (list_models fs) nm = some r) :
    ∃ p m, (p, some m) ∈ fs.files ∧
      r.size = format_size (m.layers.map (fun l => l.getD 0)).sum := by
  have hmem : (nm, r) ∈ list_models fs := assocFind_mem h
  unfold list_models at hmem
  by_cases hroot : fs.rootExists = true
  · rw [if_pos hroot] at hmem
    rcases scan_foldl_mem hmem with h1 | ⟨p, m, hm, _h2, h3⟩
    · exact absurd h1 (List.not_mem_nil _)
    · exact ⟨p, m, hm, by rw [h3]; rfl⟩
  · rw [if_neg hroot] at hmem
    exact absurd hmem (List.not_mem_nil _)

/-- Witness for C9 (amended): the record scanned from `mC9` holds the
formatted rendering of its 100-byte layer total. -/
theorem c9_record_size_formatted_witness :
    (mkRecord ["m9"] mC9).size =
      format_size (mC9.layers.map (fun l => l.getD 0)).sum := by
  obtain ⟨p, m, hm, hsz⟩ :=
    c9_record_size_formatted fsC9 "m9:latest" (mkRecord ["m9"] mC9) rfl
  have heq := List.mem_singleton.mp hm
  have h2 : some m = some mC9 := congrArg Prod.snd heq
  injection h2 with h2
  subst h2
  exact hsz

/-! ### Claim C10 — the caller's registry is never mutated -/

/-- C10: `delete_model` never changes the caller's registry mapping: the
source works on a copy (`new_models = dict(models)`) and never writes to the
parameter, so on every path — not found, manifest removal failure, or a
completed run — the registry after the call equals the registry before. -/
theorem c10_registry_unchanged (model_name : String) (models : Registry) (fs : FS) :
    (delete_model model_name models fs).registry = models := by
  unfold delete_model
  cases assocFind models model_name with
  | none => rfl
  | some info =>
    by_cases h : removeManifestOk fs info.file_path = true
    · simp [h]
    · simp [h]

/-! ### Reference index lemmas (claim C6) -/

theorem assocFind_updIdx_self (idx : RefIndex) (b nm : String) :
    assocFind (updIdx idx b nm) b =
      some (insertIfAbsent nm ((assocFind idx b).getD [])) := by
  induction idx with
  | nil => simp [updIdx, assocFind, insertIfAbsent]
  | cons p rest ih =>
    obtain ⟨k, v⟩ := p
    by_cases hk : k = b
    · simp [updIdx, assocFind, hk]
    · simp [updIdx, assocFind, hk, ih]

theorem assocFind_updIdx_ne (idx : RefIndex) (b nm key : String) (h : key ≠ b) :
    assocFind (updIdx idx b nm) key = assocFind idx key := by
  induction idx with
  | nil =>
    have hbk : ¬ (b = key) := fun hh => h hh.symm
    simp [updIdx, assocFind, hbk]
  | cons p rest ih =>
    obtain ⟨k, v⟩ := p
    by_cases hk : k = b
    · subst hk
      have hkk : ¬ (k = key) := fun hh => h hh.symm
      simp [updIdx, assocFind, hkk]
    · by_cases hkey : k = key
      · simp [updIdx, assocFind, hk, hkey, h]
      · simp [updIdx, assocFind, hk, hkey, ih]

theorem mem_addRecord (idx : RefIndex) (nm : String) (bs : List String) (key x : String) :
    x ∈ ((assocFind (addRecord idx nm bs) key).getD []) ↔
      x ∈ ((assocFind idx key).getD []) ∨ (key ∈ bs ∧ x = nm) := by
  induction bs generalizing idx with
  | nil => simp [addRecord]
  | cons b rest ih =>
    rw [show addRecord idx nm (b :: rest) = addRecord (updIdx idx b nm) nm rest from rfl,
      ih]
    by_cases hkb : key = b
    · subst hkb
      rw [assocFind_updIdx_self]
      simp only [Option.getD_some, mem_insertIfAbsent, List.mem_cons, true_or, true_and]
      tauto
    · rw [assocFind_updIdx_ne _ _ _ _ hkb]
      simp only [List.mem_cons]
      constructor
      · rintro (hx | ⟨hr, hx⟩)
        · exact Or.inl hx
        · exact Or.inr ⟨Or.inr hr, hx⟩
      · rintro (hx | ⟨hb | hr, hx⟩)
        · exact Or.inl hx
        · exact absurd hb hkb
        · exact Or.inr ⟨hr, hx⟩

theorem addRecord_find_ne_none (idx : RefIndex) (nm : String) (bs : List String)
    (key : String) :
    assocFind (addRecord idx nm bs) key ≠ none ↔
      assocFind idx key ≠ none ∨ key ∈ bs := by
  induction bs generalizing idx with
  | nil => simp [addRecord]
  | cons b rest ih =>
    rw [show addRecord idx nm (b :: rest) = addRecord (updIdx idx b nm) nm rest from rfl,
      ih]
    by_cases hkb : key = b
    · subst hkb
      rw [assocFind_updIdx_self]
      simp
    · rw [assocFind_updIdx_ne _ _ _ _ hkb]
      simp only [List.mem_cons]
      tauto

theorem buildIndex_foldl_mem (reg : Registry) (idx : RefIndex) (b x : String) :
    x ∈ ((assocFind (reg.foldl (fun i p => addRecord i p.1 p.2.blob_hashes) idx) b).getD [])
      ↔ x ∈ ((assocFind idx b).getD [])
          ∨ ∃ r, (x, r) ∈ reg ∧ b ∈ r.blob_hashes := by
  induction reg generalizing idx with
  | nil => simp
  | cons p rest ih =>
    obtain ⟨nm0, r0⟩ := p
    rw [List.foldl_cons, ih, mem_addRecord]
    constructor
    · rintro ((hx | ⟨hb, rfl⟩) | ⟨r, hr, hbr⟩)
      · exact Or.inl hx
      · exact Or.inr ⟨r0, List.mem_cons_self _ _, hb⟩
      · exact Or.inr ⟨r, List.mem_cons_of_mem _ hr, hbr⟩
    · rintro (hx | ⟨r, hr, hbr⟩)
      · exact Or.inl (Or.inl hx)
      · rcases List.mem_cons.mp hr with heq | hr2
        · have h1 : x = nm0 := congrArg Prod.fst heq
          have h2 : r = r0 := congrArg Prod.snd heq
          subst h1
          subst h2
          exact Or.inl (Or.inr ⟨hbr, rfl⟩)
        · exact Or.inr ⟨r, hr2, hbr⟩

theorem buildIndex_foldl_ne_none (reg : Registry) (idx : RefIndex) (b : String) :
    assocFind (reg.foldl (fun i p => addRecord i p.1 p.2.blob_hashes) idx) b ≠ none ↔
      assocFind idx b ≠ none ∨ ∃ nm r, (nm, r) ∈ reg ∧ b ∈ r.blob_hashes := by
  induction reg generalizing idx with
  | nil => simp
  | cons p rest ih =>
    obtain ⟨nm0, r0⟩ := p
    rw [List.foldl_cons, ih, addRecord_find_ne_none]
    constructor
    · rintro ((hx | hb) | ⟨nm, r, hr, hbr⟩)
      · exact Or.inl hx
      · exact Or.inr ⟨nm0, r0, List.mem_cons_self _ _, hb⟩
      · exact Or.inr ⟨nm, r, List.mem_cons_of_mem _ hr, hbr⟩
    · rintro (hx | ⟨nm, r, hr, hbr⟩)
      · exact Or.inl (Or.inl hx)
      · rcases List.mem_cons.mp hr with heq | hr2
        · have h2 : r = r0 := congrArg Prod.snd heq
          subst h2
          exact Or.inl (Or.inr hbr)
        · exact Or.inr ⟨nm, r, hr2, hbr⟩

/-! ### Claim C6 — the reference index inverts the records -/

/-- C6: `find_all_references` is the exact inverse of the scanned records'
blob references: a blob identifier is a key of the index iff at least one
record of the scanned registry lists it, and the value stored under that key
contains exactly the model names whose records reference the blob. -/
theorem c6_index_inverse (fs : FS) (b : String) :
    (assocFind (find_all_references fs) b ≠ none ↔
        ∃ nm r, (nm, r) ∈ list_models fs ∧ b ∈ r.blob_hashes)
      ∧ ∀ v, assocFind (find_all_references fs) b = some v →
          ∀ x, x ∈ v ↔ ∃ r, (x, r) ∈ list_models fs ∧ b ∈ r.blob_hashes := by
  constructor
  · rw [show find_all_references fs
        = (list_models fs).foldl (fun i p => addRecord i p.1 p.2.blob_hashes) [] from rfl,
      buildIndex_foldl_ne_none]
    simp [assocFind]
  · intro v hv x
    have hm := buildIndex_foldl_mem (list_models fs) [] b x
    rw [show (list_models fs).foldl (fun i p => addRecord i p.1 p.2.blob_hashes) []
        = find_all_references fs from rfl, hv] at hm
    simpa [assocFind] using hm

/-- Witness for C6: in `fsC6` the index entry of the shared blob
`sha256-y6` is `["m1:latest", "m2:latest"]`, and the second model is indeed
listed because its scanned record references the blob. -/
theorem c6_index_inverse_witness : "m2:latest" ∈ ["m1:latest", "m2:latest"] := by
  have h := (c6_index_inverse fsC6 "sha256-y6").2 ["m1:latest", "m2:latest"] rfl "m2:latest"
  exact h.mpr ⟨mkRecord ["m2"] mC6b,
    List.mem_cons_of_mem _ (List.mem_cons_self _ _), by decide⟩

/-! ### Recount lemmas (claim C2) -/

theorem assocFind_bump_ne {l : List (String × Nat)} {b key : String} (h : key ≠ b) :
    assocFind (bump l b) key = assocFind l key := by
  induction l with
  | nil =>
    have hbk : ¬ (b = key) := fun hh => h hh.symm
    simp [bump, assocFind, hbk]
  | cons p rest ih =>
    obtain ⟨k, c⟩ := p
    by_cases hk : k = b
    · subst hk
      have hkk : ¬ (k = key) := fun hh => h hh.symm
      simp [bump, assocFind, hkk]
    · by_cases hkey : k = key
      · simp [bump, assocFind, hk, hkey, h]
      · simp [bump, assocFind, hk, hkey, ih]

theorem bumpList_none {bs : List (Option String)} {acc : List (String × Nat)} {b : String}
    (hb : b ∉ blobNamesList bs) (hacc : assocFind acc b = none) :
    assocFind (bumpList acc bs) b = none := by
  induction bs generalizing acc with
  | nil => simpa [bumpList] using hacc
  | cons ob rest ih =>
    cases hob : blobName ob with
    | none =>
      have hbr : b ∉ blobNamesList rest := by
        simpa [blobNamesList, List.filterMap_cons, hob] using hb
      simpa only [bumpList, hob] using ih hbr hacc
    | some f =>
      have hb2 : ¬ (b = f) ∧ b ∉ blobNamesList rest := by
        simpa [blobNamesList, List.filterMap_cons, hob] using hb
      have hacc2 : assocFind (bump acc f) b = none := by
        rw [assocFind_bump_ne hb2.1]
        exact hacc
      simpa only [bumpList, hob] using ih hb2.2 hacc2

theorem recountFiles_none {files : List (List String × Option Manifest)}
    {acc : List (String × Nat)} {b : String}
    (hfiles : ∀ p m, (p, some m) ∈ files → b ∉ blobNamesList m.blobs)
    (hacc : assocFind acc b = none) :
    assocFind (recountFiles files acc) b = none := by
  induction files generalizing acc with
  | nil => simpa [recountFiles] using hacc
  | cons pf rest ih =>
    obtain ⟨p, c⟩ := pf
    have hrest : ∀ q m, (q, some m) ∈ rest → b ∉ blobNamesList m.blobs :=
      fun q m hm => hfiles q m (List.mem_cons_of_mem _ hm)
    by_cases hj : isTopLevelJson p = true
    · cases c with
      | none => simpa only [recountFiles, hj, if_true] using ih hrest hacc
      | some m =>
        have hmb : b ∉ blobNamesList m.blobs := hfiles p m (List.mem_cons_self _ _)
        simpa only [recountFiles, hj, if_true] using ih hrest (bumpList_none hmb hacc)
    · have hj2 : isTopLevelJson p = false := by
        cases hv : isTopLevelJson p
        · rfl
        · exact absurd hv hj
      simpa only [recountFiles, hj2, Bool.false_eq_true, if_false] using ih hrest hacc

theorem recount_none {fs : FS} {b : String}
    (hfiles : ∀ p m, (p, some m) ∈ fs.files → b ∉ blobNamesList m.blobs) :
    assocFind (recount fs) b = none := by
  unfold recount
  by_cases h : fs.rootExists = true
  · rw [if_pos h]
    exact recountFiles_none hfiles rfl
  · rw [if_neg h]
    rfl

/-! ### Sweep lemmas (claim C2) -/

theorem sweepBlobs_files (refs : List (String × Nat)) (cands : List String) (fs : FS) :
    (sweepBlobs refs fs cands).1.files = fs.files := by
  induction cands generalizing fs with
  | nil => rfl
  | cons b rest ih =>
    simp only [sweepBlobs]
    by_cases h0 : (assocFind refs b).getD 0 = 0
    · rw [if_pos h0]
      by_cases hin : b ∈ fs.blobFiles
      · rw [if_pos hin]
        by_cases hfail : b ∈ fs.blobRemoveFails
        · rw [if_pos hfail]
          exact ih fs
        · rw [if_neg hfail]
          exact ih (removeBlob fs b)
      · rw [if_neg hin]
        exact ih fs
    · rw [if_neg h0]
      exact ih fs

theorem sweepBlobs_mem (refs : List (String × Nat)) (cands : List String) (fs : FS)
    (x : String) :
    x ∈ (sweepBlobs refs fs cands).1.blobFiles ↔
      x ∈ fs.blobFiles ∧
        ¬(x ∈ cands ∧ (assocFind refs x).getD 0 = 0 ∧ x ∉ fs.blobRemoveFails) := by
  induction cands generalizing fs with
  | nil => simp [sweepBlobs]
  | cons b rest ih =>
    simp only [sweepBlobs]
    by_cases h0 : (assocFind refs b).getD 0 = 0
    · rw [if_pos h0]
      by_cases hin : b ∈ fs.blobFiles
      · rw [if_pos hin]
        by_cases hfail : b ∈ fs.blobRemoveFails
        · rw [if_pos hfail]
          rw [show ((sweepBlobs refs fs rest).1, b :: (sweepBlobs refs fs rest).2).1
              = (sweepBlobs refs fs rest).1 from rfl, ih fs]
          simp only [List.mem_cons]
          constructor
          · rintro ⟨hxf, hnc⟩
            refine ⟨hxf, ?_⟩
            rintro ⟨hx | hx, hc⟩
            · subst hx
              exact hc.2 hfail
            · exact hnc ⟨hx, hc⟩
          · rintro ⟨hxf, hnc⟩
            exact ⟨hxf, fun hc => hnc ⟨Or.inr hc.1, hc.2⟩⟩
        · rw [if_neg hfail]
          rw [ih (removeBlob fs b)]
          have hmem : x ∈ (removeBlob fs b).blobFiles ↔ x ∈ fs.blobFiles ∧ x ≠ b := by
            simp [removeBlob, List.mem_filter]
          have hfl : (removeBlob fs b).blobRemoveFails = fs.blobRemoveFails := rfl
          rw [hmem, hfl]
          simp only [List.mem_cons]
          constructor
          · rintro ⟨⟨hxf, hxb⟩, hnc⟩
            refine ⟨hxf, ?_⟩
            rintro ⟨hx | hx, hc⟩
            · exact hxb hx
            · exact hnc ⟨hx, hc⟩
          · rintro ⟨hxf, hnc⟩
            by_cases hxb : x = b
            · subst hxb
              exact absurd ⟨Or.inl rfl, h0, hfail⟩ hnc
            · exact ⟨⟨hxf, hxb⟩, fun hc => hnc ⟨Or.inr hc.1, hc.2⟩⟩
      · rw [if_neg hin]
        rw [ih fs]
        simp only [List.mem_cons]
        constructor
        · rintro ⟨hxf, hnc⟩
          refine ⟨hxf, ?_⟩
          rintro ⟨hx | hx, hc⟩
          · subst hx
            exact hin hxf
          · exact hnc ⟨hx, hc⟩
        · rintro ⟨hxf, hnc⟩
          exact ⟨hxf, fun hc => hnc ⟨Or.inr hc.1, hc.2⟩⟩
    · rw [if_neg h0]
      rw [ih fs]
      simp only [List.mem_cons]
      constructor
      · rintro ⟨hxf, hnc⟩
        refine ⟨hxf, ?_⟩
        rintro ⟨hx | hx, hc⟩
        · subst hx
          exact h0 hc.1
        · exact hnc ⟨hx, hc⟩
      · rintro ⟨hxf, hnc⟩
        exact ⟨hxf, fun hc => hnc ⟨Or.inr hc.1, hc.2⟩⟩

theorem sweepBlobs_errors_nil (refs : List (String × Nat)) (cands : List String) (fs : FS)
    (h : ∀ b ∈ cands, b ∉ fs.blobRemoveFails) :
    (sweepBlobs refs fs cands).2 = [] := by
  induction cands generalizing fs with
  | nil => rfl
  | cons b rest ih =>
    have hrest : ∀ c ∈ rest, c ∉ fs.blobRemoveFails :=
      fun c hc => h c (List.mem_cons_of_mem _ hc)
    simp only [sweepBlobs]
    by_cases h0 : (assocFind refs b).getD 0 = 0
    · rw [if_pos h0]
      by_cases hin : b ∈ fs.blobFiles
      · rw [if_pos hin]
        rw [if_neg (h b (List.mem_cons_self _ _))]
        exact ih (removeBlob fs b) hrest
      · rw [if_neg hin]
        exact ih fs hrest
    · rw [if_neg h0]
      exact ih fs hrest

/-! ### Claim C2 — deleting a model whose blobs nobody else references -/

/-- C2: if the registry holds `model_name`, the manifest removal succeeds,
no manifest file remaining on disk after that removal references any of the
model's candidate blobs, and no candidate hits a blob-removal failure, then
the completed run has removed the manifest file and every candidate blob
file that existed in the blob store; candidates whose file was already
missing are simply absent as well, and the run reports no per-blob
errors. -/
theorem c2_unreferenced_blobs_deleted (model_name : String) (models : Registry) (fs : FS)
    (info : ModelRecord)
    (hlook : assocFind models model_name = some info)
    (hok : removeManifestOk fs info.file_path = true)
    (hnoref : ∀ p m, (p, some m) ∈ (fsRemoveManifest fs info.file_path).files →
        ∀ b ∈ info.blob_hashes, b ∉ blobNamesList m.blobs)
    (hnofail : ∀ b ∈ info.blob_hashes, b ∉ fs.blobRemoveFails) :
    (∀ q ∈ (delete_model model_name models fs).fs.files, q.1 ≠ info.file_path)
      ∧ (∀ b ∈ info.blob_hashes, b ∉ (delete_model model_name models fs).fs.blobFiles)
      ∧ (delete_model model_name models fs).status = .completed [] := by
  have hrun : delete_model model_name models fs =
      { fs := (sweepBlobs (recount (fsRemoveManifest fs info.file_path))
            (fsRemoveManifest fs info.file_path) info.blob_hashes).1
        registry := models
        returned := none
        status := .completed (sweepBlobs (recount (fsRemoveManifest fs info.file_path))
            (fsRemoveManifest fs info.file_path) info.blob_hashes).2 } := by
    unfold delete_model
    rw [hlook]
    simp [hok]
  rw [hrun]
  refine ⟨?_, ?_, ?_⟩
  · intro q hq
    rw [sweepBlobs_files] at hq
    have hq2 := (List.mem_filter.mp hq).2
    simpa using hq2
  · intro b hb
    have hzero : assocFind (recount (fsRemoveManifest fs info.file_path)) b = none :=
      recount_none (fun p m hm => hnoref p m hm b hb)
    rw [sweepBlobs_mem]
    rintro ⟨hbf, hnc⟩
    exact hnc ⟨hb, by simp [hzero], hnofail b hb⟩
  · have herr : (sweepBlobs (recount (fsRemoveManifest fs info.file_path))
        (fsRemoveManifest fs info.file_path) info.blob_hashes).2 = [] :=
      sweepBlobs_errors_nil _ _ _ hnofail
    rw [show DeleteRun.status
        { fs := (sweepBlobs (recount (fsRemoveManifest fs info.file_path))
            (fsRemoveManifest fs info.file_path) info.blob_hashes).1
          registry := models
          returned := none
          status := .completed (sweepBlobs (recount (fsRemoveManifest fs info.file_path))
            (fsRemoveManifest fs info.file_path) info.blob_hashes).2 }
        = .completed (sweepBlobs (recount (fsRemoveManifest fs info.file_path))
            (fsRemoveManifest fs info.file_path) info.blob_hashes).2 from rfl, herr]

/-- Witness for C2: deleting the only model of `fsC2` removes its blob
`sha256-only2` and completes without per-blob errors. -/
theorem c2_unreferenced_blobs_deleted_witness :
    "sha256-only2" ∉ (delete_model "solo2.json:latest" regC2 fsC2).fs.blobFiles
      ∧ (delete_model "solo2.json:latest" regC2 fsC2).status = .completed [] := by
  have h := c2_unreferenced_blobs_deleted "solo2.json:latest" regC2 fsC2
    (mkRecord ["solo2.json"] mC2) rfl rfl
    (by
      intro p m hm
      rw [show (fsRemoveManifest fsC2 (mkRecord ["solo2.json"] mC2).file_path).files
          = [] from rfl] at hm
      exact absurd hm (List.not_mem_nil _))
    (by decide)
  exact ⟨h.2.1 "sha256-only2" (by decide), h.2.2⟩
